import Mathlib

/-!
Verification of the ONS vacancy-vintage ingestion and panel-consolidation
engine (`src/prepare.py`, `src/revisions.py`, `src/forecast.py`,
`src/downloader.py`) against its natural-language specification.

Strings are modelled as `List Char` (Python `str` over its code points);
`str` injects Lean string literals.  Dates are `(year, month, day)` triples
of naturals; monetary/series values are rationals (the float operations the
spec exercises — parsing decimal literals, subtraction, means — are exact
at every input considered here).  Python's `datetime.strptime` is modelled
for exactly the four format strings the code passes to it, following
CPython's `_strptime` regexes (anchored full match, `\s+` for a literal
space, fixed-width `%Y`, case-insensitive month names, day-of-month
validity enforced by the `datetime` constructor).
-/

/-- Python strings, modelled as their list of characters. -/
abbrev Str : Type := List Char

/-- Inject a Lean string literal as a `Str`. -/
def str (s : String) : Str := s.data

/-- Python `str.lower()` (ASCII fragment, which covers every key the code
inspects). -/
def lower (s : Str) : Str := s.map Char.toLower

/-- Python `str.strip()`: drop leading and trailing whitespace. -/
def strip (s : Str) : Str :=
  (((s.dropWhile Char.isWhitespace).reverse.dropWhile Char.isWhitespace).reverse)

/-- The `uq` / `strip_quotes` helper of `prepare.read_csv_with_header_metadata`
and `downloader.extract_metadata_from_csv_text`: strip whitespace, then remove
one pair of surrounding double quotes if present. -/
def uq (s : Str) : Str :=
  let t := strip s
  match t with
  | [] => t
  | c :: rest =>
    if c = '"' ∧ rest ≠ [] ∧ rest.getLast? = some '"' then rest.dropLast else t

/-- Python `line.split(",", 1)`: split on the first comma; `none` when the
line has no comma (so `len(parts) == 1`, not 2). -/
def splitFirstComma : Str → Option (Str × Str)
  | [] => none
  | c :: rest =>
    if c = ',' then some ([], rest)
    else
      match splitFirstComma rest with
      | some (a, b) => some (c :: a, b)
      | none => none

/-- Python `text.splitlines()` restricted to `'\n'` separators (the only line
terminator in the documents the engine reads). A trailing newline produces no
trailing empty line, as in Python. -/
def splitLines : Str → List Str
  | [] => []
  | c :: rest =>
    if c = '\n' then
      [] :: splitLines rest
    else
      match splitLines rest with
      | [] => [[c]]
      | l :: ls => (c :: l) :: ls

/-- Digits of a numeral string to a natural number (used after a digit-span,
so every character is a digit). -/
def digitsToNat (s : Str) : ℕ :=
  s.foldl (fun acc c => acc * 10 + (c.toNat - '0'.toNat)) 0

/-- Maximal digit run and the remainder (a regex `\d*` step). -/
def spanDigits (s : Str) : Str × Str := (s.takeWhile Char.isDigit, s.dropWhile Char.isDigit)

/-- Maximal alphabetic run and the remainder. -/
def spanAlpha (s : Str) : Str × Str := (s.takeWhile Char.isAlpha, s.dropWhile Char.isAlpha)

/-- Maximal whitespace run and the remainder (a regex `\s*` step). -/
def spanWs (s : Str) : Str × Str := (s.takeWhile Char.isWhitespace, s.dropWhile Char.isWhitespace)

/-- Calendar date as used by `datetime` / `pandas.Timestamp`. -/
structure Date where
  year : ℕ
  month : ℕ
  day : ℕ
  deriving DecidableEq, Repr

/-- Chronological key for valid dates: `yyyymmdd` as a number.  `datetime`
objects always carry `1 ≤ month ≤ 12` and `1 ≤ day ≤ 31`, for which this
numeric order coincides with chronological order. -/
def dateNum (d : Date) : ℕ := d.year * 10000 + d.month * 100 + d.day

/-- The month index used by `pandas` `Period("M")` arithmetic: months since
year 0. -/
def monthIdx (d : Date) : ℕ := d.year * 12 + d.month

/-- Gregorian leap-year test (as in `datetime`). -/
def isLeap (y : ℕ) : Bool := y % 4 = 0 ∧ (y % 100 ≠ 0 ∨ y % 400 = 0)

/-- Days in a month, as validated by the `datetime` constructor. -/
def daysInMonth (y m : ℕ) : ℕ :=
  if m = 2 then (if isLeap y then 29 else 28)
  else if m = 4 ∨ m = 6 ∨ m = 9 ∨ m = 11 then 30
  else 31

/-- The fixed abbreviation→month-number table `MONTH_MAP` of `prepare.py`
(keys produced there by `mon_s.upper()`; stored here lowercased because the
strptime model lowercases its input before the name lookup, which is how
CPython implements case-insensitive matching). -/
def monthAbbrevTable : List (Str × ℕ) :=
  [(str "jan", 1), (str "feb", 2), (str "mar", 3), (str "apr", 4),
   (str "may", 5), (str "jun", 6), (str "jul", 7), (str "aug", 8),
   (str "sep", 9), (str "oct", 10), (str "nov", 11), (str "dec", 12)]

/-- Full month names recognised by strptime's `%B`. -/
def monthFullTable : List (Str × ℕ) :=
  [(str "january", 1), (str "february", 2), (str "march", 3),
   (str "april", 4), (str "may", 5), (str "june", 6), (str "july", 7),
   (str "august", 8), (str "september", 9), (str "october", 10),
   (str "november", 11), (str "december", 12)]

/-- Association-list lookup (Python `dict.get` over the constant tables). -/
def tblGet (tbl : List (Str × ℕ)) (k : Str) : Option ℕ :=
  (tbl.find? (fun p => p.1 = k)).map (fun p => p.2)

/-- CPython `%d` directive: one or two digits with value 1–31 (regex
`(3[01]|[12]\d|0[1-9]|[1-9])`). Returns the parsed day and the remainder. -/
def parseDay2 (s : Str) : Option (ℕ × Str) :=
  let (ds, r) := spanDigits s
  if (ds.length = 1 ∨ ds.length = 2) ∧ 1 ≤ digitsToNat ds ∧ digitsToNat ds ≤ 31 then
    some (digitsToNat ds, r)
  else none

/-- CPython `%m` directive: one or two digits with value 1–12. -/
def parseMonth2 (s : Str) : Option (ℕ × Str) :=
  let (ds, r) := spanDigits s
  if (ds.length = 1 ∨ ds.length = 2) ∧ 1 ≤ digitsToNat ds ∧ digitsToNat ds ≤ 12 then
    some (digitsToNat ds, r)
  else none

/-- CPython `%Y` directive: exactly four digits; the `datetime` constructor
then rejects year 0. -/
def parseYear4 (s : Str) : Option (ℕ × Str) :=
  let (ds, r) := spanDigits s
  if ds.length = 4 ∧ digitsToNat ds ≠ 0 then some (digitsToNat ds, r) else none

/-- A literal space in a strptime format compiles to `\s+`: at least one
whitespace character. -/
def parseWs1 (s : Str) : Option Str :=
  let (ws, r) := spanWs s
  if ws = [] then none else some r

/-- A month-name directive (`%B` or `%b` according to the table): the maximal
alphabetic run, looked up case-insensitively. -/
def parseMonthName (tbl : List (Str × ℕ)) (s : Str) : Option (ℕ × Str) :=
  let (al, r) := spanAlpha s
  match tblGet tbl (lower al) with
  | some m => some (m, r)
  | none => none

/-- Final `datetime(year, month, day)` construction: day-of-month validity. -/
def mkDate (y m d : ℕ) : Option Date :=
  if 1 ≤ d ∧ d ≤ daysInMonth y m then some ⟨y, m, d⟩ else none

/-- strptime with format `"%d %B %Y"` or `"%d %b %Y"` (month-name table as
the parameter): day, whitespace, month name, whitespace, four-digit year,
end of input. -/
def strptimeDayNameYear (tbl : List (Str × ℕ)) (s : Str) : Option Date :=
  match parseDay2 s with
  | none => none
  | some (d, r1) =>
    match parseWs1 r1 with
    | none => none
    | some r2 =>
      match parseMonthName tbl r2 with
      | none => none
      | some (m, r3) =>
        match parseWs1 r3 with
        | none => none
        | some r4 =>
          match parseYear4 r4 with
          | some (y, []) => mkDate y m d
          | _ => none

/-- strptime with format `"%Y-%m-%d"`. -/
def strptimeYmd (s : Str) : Option Date :=
  match parseYear4 s with
  | some (y, '-' :: r1) =>
    match parseMonth2 r1 with
    | some (m, '-' :: r2) =>
      match parseDay2 r2 with
      | some (d, []) => mkDate y m d
      | _ => none
    | _ => none
  | _ => none

/-- strptime with format `"%d-%m-%Y"`. -/
def strptimeDmy (s : Str) : Option Date :=
  match parseDay2 s with
  | some (d, '-' :: r1) =>
    match parseMonth2 r1 with
    | some (m, '-' :: r2) =>
      match parseYear4 r2 with
      | some (y, []) => mkDate y m d
      | _ => none
    | _ => none
  | _ => none

/-- `datetime.strptime(val, fmt)` for the four formats the repository passes
to it; any other format string parses nothing. -/
def strptime (fmt : String) (s : Str) : Option Date :=
  if fmt = "%d %B %Y" then strptimeDayNameYear monthFullTable s
  else if fmt = "%d %b %Y" then strptimeDayNameYear monthAbbrevTable s
  else if fmt = "%Y-%m-%d" then strptimeYmd s
  else if fmt = "%d-%m-%Y" then strptimeDmy s
  else none

example : strptime "%d %B %Y" (str "15 June 2023") = some ⟨2023, 6, 15⟩ := by decide

example : strptime "%Y-%m-%d" (str "2023-01-02") = some ⟨2023, 1, 2⟩ := by decide

example : strptime "%d %b %Y" (str "15 June 2023") = none := by decide

example : strptime "%d %B %Y" (str "31 February 2023") = none := by decide

/-- Python `str.upper()` (ASCII fragment). -/
def upper (s : Str) : Str := s.map Char.toUpper

/-- Decomposed float literal: sign, integer-part value, fraction-part value
and digit count, exponent. -/
structure FloatParts where
  neg : Bool
  ip : ℕ
  fp : ℕ
  fl : ℕ
  ex : ℤ
  deriving DecidableEq, Repr

/-- Exponent part `e`/`E`, optional sign, at least one digit. -/
def parseExp (s : Str) : Option (ℤ × Str) :=
  match s with
  | c :: r1 =>
    if c = 'e' ∨ c = 'E' then
      let (neg, r2) : Bool × Str :=
        match r1 with
        | '+' :: r => (false, r)
        | '-' :: r => (true, r)
        | r => (false, r)
      let (ds, r3) := spanDigits r2
      if ds = [] then none
      else some ((if neg then -(digitsToNat ds : ℤ) else (digitsToNat ds : ℤ)), r3)
    else none
  | [] => none

/-- Tail of the float grammar after the mantissa: end of input, or an
exponent consuming the rest. -/
def pyFloatFinish (neg : Bool) (ip fp fl : ℕ) (r : Str) : Option FloatParts :=
  match r with
  | [] => some ⟨neg, ip, fp, fl, 0⟩
  | _ =>
    match parseExp r with
    | some (e, []) => some ⟨neg, ip, fp, fl, e⟩
    | _ => none

/-- Python's `float(s)` grammar on the finite decimal fragment (`inf`/`nan`
words and PEP 515 underscores do not occur in the numeric columns this
engine reads and are outside the model): surrounding whitespace stripped,
optional sign, digits with an optional point (at least one digit in total),
optional exponent; the whole string must be consumed. -/
def pyFloatParts (s : Str) : Option FloatParts :=
  let t := strip s
  let (neg, u) : Bool × Str :=
    match t with
    | '+' :: r => (false, r)
    | '-' :: r => (true, r)
    | r => (false, r)
  let (ip, r1) := spanDigits u
  match r1 with
  | '.' :: r2 =>
    let (fp, r3) := spanDigits r2
    if ip = [] ∧ fp = [] then none
    else pyFloatFinish neg (digitsToNat ip) (digitsToNat fp) fp.length r3
  | _ => if ip = [] then none else pyFloatFinish neg (digitsToNat ip) 0 0 r1

/-- The rational value denoted by a parsed float literal. -/
def pyFloatVal (p : FloatParts) : ℚ :=
  let m : ℚ := (p.ip : ℚ) + (p.fp : ℚ) / (10 : ℚ) ^ p.fl
  let v : ℚ := m * (10 : ℚ) ^ p.ex
  if p.neg then -v else v

/-- `float(s)`: the parsed value, or `none` on `ValueError`. -/
def pyFloat (s : Str) : Option ℚ := (pyFloatParts s).map pyFloatVal

/-- The `ts_key` / `time_series_key_pattern` regex
`^\d{4}(?:\s+Q[1-4]|\s+M\d{2})?$` of `prepare.py` and `downloader.py`. -/
def tsKey (k : Str) : Bool :=
  let (ds, r) := spanDigits k
  if ds.length ≠ 4 then false
  else
    match r with
    | [] => true
    | _ =>
      match parseWs1 r with
      | none => false
      | some r2 =>
        match r2 with
        | ['Q', d] => d = '1' ∨ d = '2' ∨ d = '3' ∨ d = '4'
        | ['M', d1, d2] => d1.isDigit ∧ d2.isDigit
        | _ => false

/-- The monthly-label regex `^\d{4}\s+[A-Z]{3}$` of
`prepare.read_csv_with_header_metadata` (note: no `re.IGNORECASE` flag, so
the three month letters must be uppercase). -/
def matchesYearMon (k : Str) : Bool :=
  let (ds, r) := spanDigits k
  if ds.length = 4 then
    match parseWs1 r with
    | none => false
    | some r2 => r2.length = 3 ∧ r2.all (fun c => 'A' ≤ c ∧ c ≤ 'Z')
  else false

/-- Header metadata: a Python `dict` preserving insertion order; re-assigning
an existing key replaces its value in place. -/
abbrev Metadata : Type := List (Str × Str)

/-- `metadata[key] = val` on a Python dict. -/
def dictInsert (md : Metadata) (k v : Str) : Metadata :=
  match md with
  | [] => [(k, v)]
  | (k', v') :: rest => if k' = k then (k, v) :: rest else (k', v') :: dictInsert rest k v

/-- `metadata.get(key)` on a Python dict (keys are unique, so the first
match is the binding). -/
def dictGet (md : Metadata) (k : Str) : Option Str :=
  (md.find? (fun p => p.1 = k)).map (fun p => p.2)

/-- The header-scanning loop shared by `prepare.read_csv_with_header_metadata`
and `downloader.extract_metadata_from_csv_text`: accumulate metadata lines,
returning `some rest` for the data lines when a `break` fires, and `none`
when the loop runs off the end of the file (in which case `data_start`
keeps its initial value 0). -/
def headerScanAux (acc : Metadata) : List Str → Metadata × Option (List Str)
  | [] => (acc, none)
  | l :: rest =>
    if strip l = [] then (acc, some rest)
    else
      match splitFirstComma l with
      | none => (acc, some (l :: rest))
      | some (p0, p1) =>
        let k := uq p0
        let v := uq p1
        if tsKey k then (acc, some (l :: rest))
        else
          let acc' := dictInsert acc k v
          if (str "important notes").isPrefixOf (lower k) then (acc', some rest)
          else headerScanAux acc' rest

/-- Header/Body split: metadata mapping plus the data lines
`lines[data_start:]`. -/
def headerSplit (lines : List Str) : Metadata × List Str :=
  match headerScanAux [] lines with
  | (md, some r) => (md, r)
  | (md, none) => (md, lines)

/-- The fixed `MONTH_MAP` of `prepare.py` (looked up with `mon_s.upper()`). -/
def MONTH_MAP : List (Str × ℕ) :=
  [(str "JAN", 1), (str "FEB", 2), (str "MAR", 3), (str "APR", 4),
   (str "MAY", 5), (str "JUN", 6), (str "JUL", 7), (str "AUG", 8),
   (str "SEP", 9), (str "OCT", 10), (str "NOV", 11), (str "DEC", 12)]

/-- One monthly `(observation_date, value)` pair. -/
structure Observation where
  observation_date : Date
  value : ℚ
  deriving DecidableEq, Repr

/-- The per-data-line body of `read_csv_with_header_metadata`'s second loop:
skip blank lines, require a comma, unquote both fields, keep the row only if
the label matches the monthly regex, the month abbreviation is in
`MONTH_MAP`, and the value parses as a float; the observation date is the
first day of the labelled month. -/
def parseRow (ln : Str) : Option Observation :=
  if strip ln = [] then none
  else
    match splitFirstComma ln with
    | none => none
    | some (p0, p1) =>
      let key := uq p0
      let value := uq p1
      if matchesYearMon key then
        let (ys, r) := spanDigits key
        let year := digitsToNat ys
        let monS := (spanWs r).2
        match tblGet MONTH_MAP (upper monS) with
        | none => none
        | some mon =>
          match pyFloat value with
          | none => none
          | some v => some ⟨⟨year, mon, 1⟩, v⟩
      else none

/-- `prepare.read_csv_with_header_metadata` on a document's text: split into
lines, scan off the header block, parse the remaining lines into
observations (the returned two-column frame, as a list of rows). -/
def read_csv_with_header_metadata (text : Str) : Metadata × List Observation :=
  let lines := splitLines text
  let (md, dataLines) := headerSplit lines
  (md, dataLines.filterMap parseRow)

/-- The fixed format list `fmts` of `parse_vintage_date`. -/
def dateFmts : List String := ["%d %B %Y", "%d %b %Y", "%Y-%m-%d", "%d-%m-%Y"]

/-- Inner loop of `parse_vintage_date`: try each format in order, first
successful `strptime` wins. -/
def tryFormats : List String → Str → Option Date
  | [], _ => none
  | f :: fs, v =>
    match strptime f v with
    | some d => some d
    | none => tryFormats fs v

/-- Outer loop of `parse_vintage_date`: for each candidate key in order,
skip it when absent or empty (`if not val: continue`); otherwise try all
formats, and on failure FALL THROUGH to the next candidate key. -/
def vintageFromKeys (md : Metadata) : List Str → Option Date
  | [] => none
  | k :: ks =>
    match dictGet md k with
    | none => vintageFromKeys md ks
    | some v =>
      if v = [] then vintageFromKeys md ks
      else
        match tryFormats dateFmts v with
        | some d => some d
        | none => vintageFromKeys md ks

/-- Candidate metadata keys of `prepare.parse_vintage_date`, in source
order. -/
def candidateKeys : List Str := [str "Release date", str "Last updated", str "Date"]

/-- `prepare.parse_vintage_date`. -/
def parse_vintage_date (md : Metadata) : Option Date := vintageFromKeys md candidateKeys

/-- Candidate metadata keys of `downloader.parse_vintage_date`, in source
order (note: a different order from `prepare.py`'s copy). -/
def candidateKeysDl : List Str := [str "Last updated", str "Release date", str "Date"]

/-- `downloader.parse_vintage_date` (the retrieval layer's copy). -/
def parse_vintage_date_dl (md : Metadata) : Option Date := vintageFromKeys md candidateKeysDl

example : pyFloatParts (str "850.2") = some ⟨false, 850, 2, 1, 0⟩ := by decide

example : pyFloat (str "850.2") = some (850.2 : ℚ) := by
  have h : pyFloatParts (str "850.2") = some ⟨false, 850, 2, 1, 0⟩ := by decide
  rw [pyFloat, h]
  norm_num [pyFloatVal]

example : pyFloat (str "12a") = none := by
  have h : pyFloatParts (str "12a") = none := by decide
  rw [pyFloat, h]
  rfl

example : matchesYearMon (str "2023 MAY") = true := by decide

example : matchesYearMon (str "2023 may") = false := by decide

example : tsKey (str "2023 Q1") = true := by decide

example : tsKey (str "2023") = true := by decide

example : tsKey (str "Release date") = false := by decide

/-- One raw downloaded file: its filename and text content. -/
structure Document where
  name : Str
  text : Str
  deriving DecidableEq, Repr

/-- A row of a per-document frame after `df["vintage_date"] = vintage`:
the vintage is still optional (`NaT` when unresolvable). -/
structure RawRow where
  observation_date : Date
  value : ℚ
  vintage : Option Date
  source_file : Str
  deriving DecidableEq, Repr

/-- The atomic unit of the consolidated panel (one output row of
`consolidate_monthlies`). -/
structure VintageRecord where
  observation_date : Date
  value : ℚ
  vintage_date : Date
  source_file : Str
  deriving DecidableEq, Repr

/-- `sorted(Path(raw_dir).glob(...))`: paths sorted ascending by name. -/
def docLe (a b : Document) : Prop := a.name ≤ b.name

instance : DecidableRel docLe := fun a b => inferInstanceAs (Decidable (a.name ≤ b.name))

/-- `sort_values(["observation_date", "vintage_date"])`: ascending
lexicographic order on the two date columns. -/
def rowLe (a b : VintageRecord) : Prop :=
  dateNum a.observation_date < dateNum b.observation_date ∨
    (dateNum a.observation_date = dateNum b.observation_date ∧
      dateNum a.vintage_date ≤ dateNum b.vintage_date)

instance : DecidableRel rowLe := fun _ _ => inferInstanceAs (Decidable (_ ∨ _))

/-- `prepare.consolidate_monthlies` over the raw directory's documents (the
`ap2y_*.csv` glob result is the input set; globbing itself is the excluded
retrieval layer's naming convention).  Documents are processed in sorted
filename order; a document with zero extracted observations is skipped; the
vintage column is attached whole-document; frames are concatenated; rows
with an unresolved (`NaT`) vintage are dropped; the result is sorted by
`(observation_date, vintage_date)`.  Raises `RuntimeError` when no frames
were collected at all. -/
def consolidate_monthlies (docs : List Document) : Except String (List VintageRecord) :=
  let sortedDocs := List.insertionSort docLe docs
  let frames : List (List RawRow) := sortedDocs.filterMap (fun d =>
    let md := (read_csv_with_header_metadata d.text).1
    let obs := (read_csv_with_header_metadata d.text).2
    if obs.isEmpty then none
    else
      let vintage := parse_vintage_date md
      some (obs.map (fun o => ⟨o.observation_date, o.value, vintage, d.name⟩)))
  if frames.isEmpty then Except.error "No monthly data found to consolidate."
  else
    let combined := frames.flatten
    let kept := combined.filterMap (fun r =>
      r.vintage.map (fun v => VintageRecord.mk r.observation_date r.value v r.source_file))
    Except.ok (List.insertionSort rowLe kept)

/-- First-occurrence deduplication (the distinct group keys of a pandas
`groupby`, in order of first appearance). -/
def dedupFirstAux [DecidableEq α] (seen : List α) : List α → List α
  | [] => []
  | x :: xs => if x ∈ seen then dedupFirstAux seen xs else x :: dedupFirstAux (x :: seen) xs

def dedupFirst [DecidableEq α] (l : List α) : List α := dedupFirstAux [] l

/-- Month index of a record's observation date. -/
def recMonth (r : VintageRecord) : ℕ := monthIdx r.observation_date

/-- `df.groupby("observation_date")["vintage_date"].idxmax()` within one
group: the FIRST row attaining the maximal vintage date (a later row
replaces the running row only when strictly greater). -/
def maxVintageFirst (g : List VintageRecord) : Option VintageRecord :=
  match g with
  | [] => none
  | b :: l =>
    some (l.foldl (fun acc r =>
      if dateNum acc.vintage_date < dateNum r.vintage_date then r else acc) b)

/-- `df.groupby("observation_date")["vintage_date"].idxmin()` within one
group: the FIRST row attaining the minimal vintage date (a later row
replaces the running row only when strictly smaller). -/
def minVintageFirst (g : List VintageRecord) : Option VintageRecord :=
  match g with
  | [] => none
  | b :: l =>
    some (l.foldl (fun acc r =>
      if dateNum r.vintage_date < dateNum acc.vintage_date then r else acc) b)

/-- `sort_values("observation_date")` on the per-month latest frame:
ascending month order. -/
def kLe (a b : ℕ × ℚ) : Prop := a.1 ≤ b.1

instance : DecidableRel kLe := fun a b => inferInstanceAs (Decidable (a.1 ≤ b.1))

instance : IsTotal (ℕ × ℚ) kLe := ⟨fun a b => le_total a.1 b.1⟩

instance : IsTrans (ℕ × ℚ) kLe := ⟨fun _ _ _ h₁ h₂ => le_trans h₁ h₂⟩

/-- The latest-vintage value per observation month, sorted by month: the
`latest` frame of `forecast.load_latest_series` (observation dates indexed
by calendar-month number; panel observation dates are month starts). -/
def latestKnowns (panel : List VintageRecord) : List (ℕ × ℚ) :=
  List.insertionSort kLe
    ((dedupFirst (panel.map recMonth)).filterMap (fun m =>
      (maxVintageFirst (panel.filter (fun r => recMonth r = m))).map (fun r => (m, r.value))))

/-- `series.interpolate(limit_direction="forward")` with pandas's default
`method="linear"` at one grid month: a known month keeps its value; a gap
strictly between two known months is linearly interpolated; a gap after the
last known month is filled with the last known value; a gap before the
first known month stays unfilled (`NaN`). -/
def interpAt (knowns : List (ℕ × ℚ)) (m : ℕ) : Option ℚ :=
  match knowns.find? (fun p => p.1 = m) with
  | some p => some p.2
  | none =>
    let before := knowns.filter (fun p => p.1 < m)
    let after := knowns.filter (fun p => m < p.1)
    match before.getLast?, after.head? with
    | some a, some b => some (a.2 + (b.2 - a.2) * ((m - a.1 : ℕ) : ℚ) / ((b.1 - a.1 : ℕ) : ℚ))
    | some a, none => some a.2
    | none, _ => none

/-- `forecast.load_latest_series` on the (typed) panel: per-month latest
values, reindexed by `asfreq("MS")` to the strictly monthly grid from the
first to the last observation month, with gaps filled by
`interpolate(limit_direction="forward")`. -/
def load_latest_series (panel : List VintageRecord) : List (ℕ × Option ℚ) :=
  match latestKnowns panel with
  | [] => []
  | k :: ks =>
    let m0 := k.1
    let m1 := (List.getLastD (k :: ks) k).1
    (List.range' m0 (m1 - m0 + 1)).map (fun m => (m, interpAt (k :: ks) m))

/-- A panel row with the revision metrics of
`revisions.add_revision_metrics` attached. -/
structure RevisionRecord where
  observation_date : Date
  value : ℚ
  vintage_date : Date
  source_file : Str
  first_value : ℚ
  rev_from_first : ℚ
  vintage_age_months : ℤ
  deriving DecidableEq, Repr

/-- `revisions.add_revision_metrics`: merge in `first_value` (the value of
the first row attaining the minimal vintage date within the row's
observation-date group), subtract for `rev_from_first`, compute the vintage
age as the whole-month `Period("M")` difference, and keep only rows with
non-negative age. -/
def add_revision_metrics (panel : List VintageRecord) : List RevisionRecord :=
  panel.filterMap (fun r =>
    (minVintageFirst (panel.filter (fun s => s.observation_date = r.observation_date))).bind
      (fun m =>
        let age : ℤ := (monthIdx r.vintage_date : ℤ) - (monthIdx r.observation_date : ℤ)
        if 0 ≤ age then
          some ⟨r.observation_date, r.value, r.vintage_date, r.source_file,
                m.value, r.value - m.value, age⟩
        else none))

/-- One row of the age summary table. -/
structure AgeSummaryRow where
  vintage_age_months : ℤ
  count : ℕ
  mean_revision : ℚ
  mean_abs_revision : ℚ
  median_abs_revision : ℚ
  p90_abs_revision : ℚ
  deriving DecidableEq, Repr

/-- Arithmetic mean. -/
def listMean (xs : List ℚ) : ℚ := xs.sum / (xs.length : ℚ)

/-- `Series.quantile(q)` with the default linear interpolation (the median
is the 0.5 quantile). -/
def quantileLinear (q : ℚ) (xs : List ℚ) : ℚ :=
  let s := List.insertionSort (fun a b : ℚ => a ≤ b) xs
  match s with
  | [] => 0
  | _ =>
    let n := s.length
    let pos : ℚ := q * ((n : ℚ) - 1)
    let f : ℕ := (⌊pos⌋).toNat
    let g : ℚ := pos - (f : ℚ)
    match s.get? f, s.get? (f + 1) with
    | some a, some b => some (a + g * (b - a)) |>.getD 0
    | some a, none => a
    | none, _ => 0

/-- `revisions.summarize_by_age`: group by `vintage_age_months` (pandas
sorts the group keys ascending), aggregate the revision column, and sort by
age (already sorted). -/
def summarize_by_age (recs : List RevisionRecord) : List AgeSummaryRow :=
  let ages := List.insertionSort (fun a b : ℤ => a ≤ b)
    (dedupFirst (recs.map (fun r => r.vintage_age_months)))
  ages.map (fun a =>
    let revs := (recs.filter (fun r => r.vintage_age_months = a)).map (fun r => r.rev_from_first)
    let absRevs := revs.map (fun x => |x|)
    ⟨a, revs.length, listMean revs, listMean absRevs,
     quantileLinear (1 / 2) absRevs, quantileLinear (9 / 10) absRevs⟩)

/-- A line the header scan files as plain metadata without stopping: it is
not blank, splits on its first comma into two fields, its first field does
not match the period-label pattern, and its key does not begin
case-insensitively with "important notes". -/
def isPlainMetaLine (l : Str) : Bool :=
  if strip l = [] then false
  else
    match splitFirstComma l with
    | none => false
    | some (p0, _) =>
      tsKey (uq p0) = false ∧ (str "important notes").isPrefixOf (lower (uq p0)) = false

/-- The key/value pair a metadata line contributes (both fields unquoted). -/
def lineKV (l : Str) : Str × Str :=
  match splitFirstComma l with
  | some (p0, p1) => (uq p0, uq p1)
  | none => ([], [])

theorem headerScanAux_all_meta (lines : List Str) :
    ∀ acc : Metadata, (∀ l ∈ lines, isPlainMetaLine l = true) →
      headerScanAux acc lines =
        (lines.foldl (fun md l => dictInsert md (lineKV l).1 (lineKV l).2) acc, none) := by
  induction lines with
  | nil => intro acc _; rfl
  | cons l rest ih =>
    intro acc h
    have hl : isPlainMetaLine l = true := h l (List.mem_cons_self l rest)
    have hrest : ∀ l' ∈ rest, isPlainMetaLine l' = true :=
      fun l' hl' => h l' (List.mem_cons_of_mem l hl')
    rw [isPlainMetaLine] at hl
    by_cases hb : strip l = []
    · simp [hb] at hl
    · rw [if_neg hb] at hl
      match hsc : splitFirstComma l with
      | none => rw [hsc] at hl; simp at hl
      | some (p0, p1) =>
        rw [hsc] at hl
        simp only [decide_eq_true_eq] at hl
        show headerScanAux acc (l :: rest) = _
        rw [headerScanAux, if_neg hb, hsc]
        simp only [hl.1, if_false, hl.2, Bool.false_eq_true]
        rw [ih (dictInsert acc (uq p0) (uq p1)) hrest]
        simp [lineKV, hsc, List.foldl_cons]

/-- C10: on input whose every line splits on its first comma into exactly
two fields, is not blank, has no first field matching the period-label
pattern, and no key beginning case-insensitively with "important notes",
the Header/Body Splitter never stops: `data_start` keeps its initial value
0, so the data block is the entire list of input lines, while the same
lines are all accumulated into the metadata mapping. -/
theorem header_split_keeps_all_lines (lines : List Str)
    (h : ∀ l ∈ lines, isPlainMetaLine l = true) :
    headerSplit lines =
      (lines.foldl (fun md l => dictInsert md (lineKV l).1 (lineKV l).2) [], lines) := by
  rw [headerSplit, headerScanAux_all_meta lines [] h]

/-- Witness for C10 at a concrete two-line header-only document. -/
theorem header_split_keeps_all_lines_witness :
    (∀ l ∈ [str "Title,UK Vacancies", str "Units,Thousands"], isPlainMetaLine l = true) ∧
      headerSplit [str "Title,UK Vacancies", str "Units,Thousands"] =
        ([str "Title,UK Vacancies", str "Units,Thousands"].foldl
            (fun md l => dictInsert md (lineKV l).1 (lineKV l).2) [],
          [str "Title,UK Vacancies", str "Units,Thousands"]) :=
  ⟨by decide, header_split_keeps_all_lines _ (by decide)⟩

/-- Names-distinct relation on documents (files in one directory). -/
def namesNe (a b : Document) : Prop := a.name ≠ b.name

instance : DecidableRel namesNe := fun a b => inferInstanceAs (Decidable (a.name ≠ b.name))

theorem namesNe_symm : Symmetric namesNe := fun _ _ h => Ne.symm h

instance : IsTotal Document docLe := ⟨fun a b => le_total a.name b.name⟩

instance : IsTrans Document docLe := ⟨fun _ _ _ h₁ h₂ => le_trans h₁ h₂⟩

theorem eq_of_perm_of_sorted_names {l₁ l₂ : List Document} (p : l₁.Perm l₂)
    (s₁ : l₁.Sorted docLe) (s₂ : l₂.Sorted docLe) (nd : l₁.Pairwise namesNe) :
    l₁ = l₂ := by
  induction l₁ generalizing l₂ with
  | nil => exact (p.nil_eq).symm ▸ rfl
  | cons a t₁ ih =>
    match l₂ with
    | [] => exact absurd p.symm.nil_eq (by simp)
    | b :: t₂ =>
      have hab : a = b := by
        have hbmem : b ∈ a :: t₁ := p.mem_iff.mpr (List.mem_cons_self b t₂)
        rcases List.mem_cons.mp hbmem with hba | hbt
        · exact hba.symm
        · have hamem : a ∈ b :: t₂ := p.mem_iff.mp (List.mem_cons_self a t₁)
          rcases List.mem_cons.mp hamem with hab' | hat
          · exact hab'
          · have h₁ : docLe a b := (List.sorted_cons.mp s₁).1 b hbt
            have h₂ : docLe b a := (List.sorted_cons.mp s₂).1 a hat
            have hne : a.name ≠ b.name := (List.pairwise_cons.mp nd).1 b hbt
            exact absurd (le_antisymm h₁ h₂) hne
      subst hab
      have p' : t₁.Perm t₂ := (List.perm_cons a).mp p
      exact congrArg (a :: ·)
        (ih p' (List.sorted_cons.mp s₁).2 (List.sorted_cons.mp s₂).2
          (List.pairwise_cons.mp nd).2)

theorem sortDocs_perm_eq {l₁ l₂ : List Document} (p : l₁.Perm l₂)
    (nd : l₁.Pairwise namesNe) :
    List.insertionSort docLe l₁ = List.insertionSort docLe l₂ := by
  refine eq_of_perm_of_sorted_names ?_ (List.sorted_insertionSort docLe l₁)
    (List.sorted_insertionSort docLe l₂) ?_
  · exact (List.perm_insertionSort docLe l₁).trans (p.trans (List.perm_insertionSort docLe l₂).symm)
  · exact nd.perm (List.perm_insertionSort docLe l₁).symm (fun h => namesNe_symm h)

/-- C3: consolidation is idempotent and order-insensitive — for a fixed set
of documents (distinct filenames, as files of one directory are), any two
presentation orders of the documents give identical Panel output, record
for record; in particular two runs on the same set agree byte for byte. -/
theorem consolidate_order_insensitive (l₁ l₂ : List Document) (p : l₁.Perm l₂)
    (nd : l₁.Pairwise namesNe) :
    consolidate_monthlies l₁ = consolidate_monthlies l₂ := by
  unfold consolidate_monthlies
  rw [sortDocs_perm_eq p nd]

def docW1 : Document :=
  ⟨str "ap2y_v1_2023-06-15.csv", str "\"Release date\",\"15 June 2023\"\n\n2023 JAN,850.2"⟩

def docW2 : Document :=
  ⟨str "ap2y_v2_2023-07-14.csv", str "\"Release date\",\"14 July 2023\"\n\n2023 FEB,860.0"⟩

/-- Witness for C3: the two presentation orders of a concrete two-document
set consolidate identically. -/
theorem consolidate_order_insensitive_witness :
    ([docW1, docW2].Perm [docW2, docW1] ∧ [docW1, docW2].Pairwise namesNe) ∧
      consolidate_monthlies [docW1, docW2] = consolidate_monthlies [docW2, docW1] :=
  ⟨⟨List.Perm.swap docW2 docW1 [], by decide⟩,
    consolidate_order_insensitive _ _ (List.Perm.swap docW2 docW1 []) (by decide)⟩

instance {ε α : Type} [DecidableEq ε] [DecidableEq α] : DecidableEq (Except ε α) := fun a b =>
  match a, b with
  | .error e, .error f => decidable_of_iff (e = f) (by simp)
  | .error _, .ok _ => isFalse (fun hh => Except.noConfusion hh)
  | .ok _, .error _ => isFalse (fun hh => Except.noConfusion hh)
  | .ok x, .ok y => decidable_of_iff (x = y) (by simp)

/-- The observations a document's text yields. -/
def observationsOf (d : Document) : List Observation :=
  (read_csv_with_header_metadata d.text).2

def docNoVintage : Document :=
  ⟨str "ap2y_v3_unknown.csv", str "Source,ONS\n\n2023 JAN,850.2"⟩

/-- C2 counterexample: a document with a well-formed observation but an
unresolvable vintage date; consolidation over it alone returns an EMPTY
panel with no error, instead of failing with the "no usable data"
condition the claim requires. -/
theorem consolidate_empty_panel_counterexample :
    observationsOf docNoVintage ≠ [] ∧
      parse_vintage_date (read_csv_with_header_metadata docNoVintage.text).1 = none ∧
      consolidate_monthlies [docNoVintage] = Except.ok [] := by decide

/-- C2 amended: consolidation raises the explicit
"No monthly data found to consolidate." error exactly when no document
yields any observations; documents whose observations are well-formed but
whose vintage date is unresolvable are dropped (at the `dropna` step) and
can leave an empty Panel that is returned without error. -/
theorem consolidate_error_iff (docs : List Document) :
    consolidate_monthlies docs = Except.error "No monthly data found to consolidate." ↔
      ∀ d ∈ docs, observationsOf d = [] := by
  rw [consolidate_monthlies]
  split_ifs with hf
  · refine iff_of_true rfl ?_
    intro d hd
    rw [List.isEmpty_iff] at hf
    have hfm := List.filterMap_eq_nil_iff.mp hf d
      ((List.perm_insertionSort docLe docs).mem_iff.mpr hd)
    simp only at hfm
    by_cases ho : (read_csv_with_header_metadata d.text).2.isEmpty
    · rw [List.isEmpty_iff] at ho
      exact ho
    · rw [if_neg ho] at hfm
      exact absurd hfm (by simp)
  · refine iff_of_false (by simp) ?_
    intro hall
    apply hf
    rw [List.isEmpty_iff]
    apply List.filterMap_eq_nil_iff.mpr
    intro d hd
    have hobs : (read_csv_with_header_metadata d.text).2 = [] :=
      hall d ((List.perm_insertionSort docLe docs).mem_iff.mp hd)
    simp [hobs]

/-- Modelled from the claim's words (spec §4.3 reading): the first candidate
key present with a non-empty value — under the claimed algorithm the
resolver commits to this key's value. -/
def firstNonEmptyCandidate (md : Metadata) : List Str → Option Str
  | [] => none
  | k :: ks =>
    match dictGet md k with
    | none => firstNonEmptyCandidate md ks
    | some v => if v = [] then firstNonEmptyCandidate md ks else some v

def mdStop : Metadata :=
  [(str "Release date", str "not a date"), (str "Last updated", str "2023-01-02")]

/-- C5 counterexample: with "Release date" present, non-empty, but
unparseable, and "Last updated" parseable, the claimed
stop-at-first-non-empty-key algorithm yields no date, while the code falls
through to the next key and resolves 2023-01-02. -/
theorem vintage_resolver_no_stop_counterexample :
    parse_vintage_date mdStop = some ⟨2023, 1, 2⟩ ∧
      firstNonEmptyCandidate mdStop candidateKeys = some (str "not a date") ∧
      (firstNonEmptyCandidate mdStop candidateKeys).bind (tryFormats dateFmts) = none := by
  decide

theorem vintageFromKeys_findSome (md : Metadata) (ks : List Str) :
    vintageFromKeys md ks = ks.findSome? (fun k =>
      (dictGet md k).bind (fun v => if v = [] then none else tryFormats dateFmts v)) := by
  induction ks with
  | nil => rfl
  | cons k ks ih =>
    rw [List.findSome?_cons]
    cases h : dictGet md k with
    | none => simp only [vintageFromKeys, h, Option.none_bind]; exact ih
    | some v =>
      by_cases hv : v = []
      · simp only [vintageFromKeys, h, hv, Option.some_bind, if_pos rfl, if_true]
        exact ih
      · cases ht : tryFormats dateFmts v with
        | none => simp only [vintageFromKeys, h, ht, Option.some_bind, if_neg hv]; exact ih
        | some d => simp only [vintageFromKeys, h, ht, Option.some_bind, if_neg hv]

/-- C5 amended: the Vintage Resolver tries "Release date", "Last updated",
"Date" in that order, skipping keys that are absent or empty; for each
non-empty candidate value it tries the formats `%d %B %Y`, `%d %b %Y`,
`%Y-%m-%d`, `%d-%m-%Y` in order; the FIRST successful key/format
combination wins — a key whose value fails every format falls through to
the next key — and the resolver returns absent only when every key/format
combination fails. -/
theorem parse_vintage_first_success (md : Metadata) :
    parse_vintage_date md = candidateKeys.findSome? (fun k =>
      (dictGet md k).bind (fun v => if v = [] then none else tryFormats dateFmts v)) :=
  vintageFromKeys_findSome md candidateKeys

/-- C6 counterexample: a row labelled with a lowercase month abbreviation
and a numeric value is SKIPPED — the label regex `^\d{4}\s+[A-Z]{3}$` is
compiled without `re.IGNORECASE`, so only uppercase month letters match
(even though the later table lookup uppercases). -/
theorem extractor_case_sensitive_counterexample :
    parseRow (str "2023 may,1.0") = none ∧
      (pyFloatParts (str "1.0")).isSome = true ∧
      matchesYearMon (str "2023 MAY") = true ∧
      matchesYearMon (str "2023 may") = false := by decide

/-- C6 amended: the Observation Extractor keeps a data row if and only if
the row is not blank, splits at its first comma, its unquoted label matches
"four-digit year, whitespace, three UPPERCASE letters" with the three
letters a standard month abbreviation (the `MONTH_MAP` lookup), and its
unquoted value parses as a float; lowercase or mixed-case month
abbreviations are skipped. -/
theorem parseRow_keeps_iff (ln : Str) :
    (parseRow ln).isSome = true ↔
      strip ln ≠ [] ∧
        ∃ p0 p1, splitFirstComma ln = some (p0, p1) ∧
          matchesYearMon (uq p0) = true ∧
          (tblGet MONTH_MAP (upper ((spanWs ((spanDigits (uq p0)).2)).2))).isSome = true ∧
          (pyFloat (uq p1)).isSome = true := by
  rw [parseRow]
  by_cases hb : strip ln = []
  · simp [hb]
  · cases hsc : splitFirstComma ln with
    | none => simp [hb, hsc]
    | some p =>
      obtain ⟨p0, p1⟩ := p
      by_cases hm : matchesYearMon (uq p0) = true
      · cases ht : tblGet MONTH_MAP (upper ((spanWs ((spanDigits (uq p0)).2)).2)) with
        | none => simp [hb, hsc, hm, ht]
        | some mon =>
          cases hf : pyFloat (uq p1) with
          | none => simp [hb, hsc, hm, ht, hf]
          | some v =>
            simp only [hb, hsc, hm, ht, hf, Option.isSome_some, if_true, ne_eq,
              not_false_eq_true, true_and, if_pos]
            refine iff_of_true (by simp) ?_
            exact ⟨p0, p1, rfl, hm, by rw [ht]; rfl, by rw [hf]; rfl⟩
      · simp [hb, hsc, hm]

def recJulB : VintageRecord := ⟨⟨2022, 6, 1⟩, 800, ⟨2022, 7, 1⟩, str "ap2y_v1.csv"⟩

def recSepB : VintageRecord := ⟨⟨2022, 6, 1⟩, 795, ⟨2022, 9, 1⟩, str "ap2y_v2.csv"⟩

/-- C1 counterexample: in Scenario B the second record's vintage age is 3
months (September minus June), not the 2 the claim states — the claim
contradicts its own whole-month rule. -/
theorem scenario_b_age_counterexample :
    (add_revision_metrics [recJulB, recSepB]).map (fun r => r.vintage_age_months) = [1, 3] ∧
      (3 : ℤ) ≠ 2 := by
  refine ⟨by decide, by decide⟩

/-- C1 amended: Scenario B with the age corrected to the whole-month
difference 3 — the RevisionRecord for the second document has
`first_value = 800`, `revision_from_first = -5`, and
`vintage_age_months = 9 - 6 = 3`. -/
theorem scenario_b_revision_metrics :
    (add_revision_metrics [recJulB, recSepB]).map
        (fun r => (r.first_value, r.rev_from_first, r.vintage_age_months)) =
      [((800 : ℚ), (0 : ℚ), (1 : ℤ)), ((800 : ℚ), (-5 : ℚ), (3 : ℤ))] := by
  simp +decide [add_revision_metrics, minVintageFirst, recJulB, recSepB, dateNum, monthIdx]
  norm_num

def dupDoc : Document :=
  ⟨str "ap2y_v2_dup.csv", str "Release date,2 January 2023\n\n2023 JAN,1.0\n2023 JAN,2.0"⟩

/-- C4 counterexample: a document with two rows for the same month
contributes TWO observations — `read_csv_with_header_metadata` appends one
record per passing row with no de-duplication — so the Panel holds two
records with the same `(observation_date, vintage_date)` pair from the
same source file. -/
theorem duplicate_rows_counterexample :
    (observationsOf dupDoc).length = 2 ∧
      (consolidate_monthlies [dupDoc]).map
          (List.map (fun r => (r.observation_date, r.vintage_date, r.source_file))) =
        Except.ok [(⟨2023, 1, 1⟩, ⟨2023, 1, 2⟩, str "ap2y_v2_dup.csv"),
          (⟨2023, 1, 1⟩, ⟨2023, 1, 2⟩, str "ap2y_v2_dup.csv")] := by decide

/-- C4 amended: duplicate monthly labels within one document are ALL kept,
one Observation per row in input order (no last-occurrence-wins
de-duplication), so the same `(observation_date, vintage_date, source_id)`
triple can repeat in the Panel. -/
theorem duplicate_rows_all_kept :
    (observationsOf dupDoc).map (fun o => (o.observation_date, o.value)) =
      [(⟨2023, 1, 1⟩, (1 : ℚ)), (⟨2023, 1, 1⟩, (2 : ℚ))] := by
  have hp1 : pyFloatParts (str "1.0") = some ⟨false, 1, 0, 1, 0⟩ := by decide
  have hp2 : pyFloatParts (str "2.0") = some ⟨false, 2, 0, 1, 0⟩ := by decide
  have hc1 : splitFirstComma (str "2023 JAN,1.0") = some (str "2023 JAN", str "1.0") := by decide
  have hc2 : splitFirstComma (str "2023 JAN,2.0") = some (str "2023 JAN", str "2.0") := by decide
  have huqk : uq (str "2023 JAN") = str "2023 JAN" := by decide
  have huv1 : uq (str "1.0") = str "1.0" := by decide
  have huv2 : uq (str "2.0") = str "2.0" := by decide
  have hm : tblGet MONTH_MAP (upper ((spanWs ((spanDigits (str "2023 JAN")).2)).2)) = some 1 := by
    decide
  have hy : digitsToNat ((spanDigits (str "2023 JAN")).1) = 2023 := by decide
  have hr1 : parseRow (str "2023 JAN,1.0") = some ⟨⟨2023, 1, 1⟩, (1 : ℚ)⟩ := by
    simp +decide [parseRow, hc1, huqk, huv1, hm, hy, pyFloat, hp1]
    norm_num [pyFloatVal]
  have hr2 : parseRow (str "2023 JAN,2.0") = some ⟨⟨2023, 1, 1⟩, (2 : ℚ)⟩ := by
    simp +decide [parseRow, hc2, huqk, huv2, hm, hy, pyFloat, hp2]
    norm_num [pyFloatVal]
  have hsplit : splitLines dupDoc.text =
      [str "Release date,2 January 2023", str "", str "2023 JAN,1.0", str "2023 JAN,2.0"] := by
    decide
  have hhead : headerSplit
      [str "Release date,2 January 2023", str "", str "2023 JAN,1.0", str "2023 JAN,2.0"] =
      ([(str "Release date", str "2 January 2023")], [str "2023 JAN,1.0", str "2023 JAN,2.0"]) := by
    decide
  simp [observationsOf, read_csv_with_header_metadata, hsplit, hhead, hr1, hr2]

def scenarioAText : Str := str "\"Release date\",\"15 June 2023\"\n\n2023 JAN,850.2"

/-- C7: Scenario A end to end — the header line
`"Release date","15 June 2023"`, a blank line and the data line
`2023 JAN,850.2` yield exactly the metadata
`{"Release date": "15 June 2023"}`, the single observation
`(2023-01-01, 850.2)`, and the resolved vintage date 2023-06-15. -/
theorem scenario_a_extraction :
    (read_csv_with_header_metadata scenarioAText).1 =
        [(str "Release date", str "15 June 2023")] ∧
      (read_csv_with_header_metadata scenarioAText).2 = [⟨⟨2023, 1, 1⟩, (850.2 : ℚ)⟩] ∧
      parse_vintage_date (read_csv_with_header_metadata scenarioAText).1 =
        some ⟨2023, 6, 15⟩ := by
  refine ⟨by decide, ?_, by decide⟩
  have hp : pyFloatParts (str "850.2") = some ⟨false, 850, 2, 1, 0⟩ := by decide
  have hsplit : splitLines scenarioAText =
      [str "\"Release date\",\"15 June 2023\"", str "", str "2023 JAN,850.2"] := by decide
  have hhead : headerSplit [str "\"Release date\",\"15 June 2023\"", str "", str "2023 JAN,850.2"]
      = ([(str "Release date", str "15 June 2023")], [str "2023 JAN,850.2"]) := by decide
  have hcomma : splitFirstComma (str "2023 JAN,850.2") =
      some (str "2023 JAN", str "850.2") := by decide
  have huq1 : uq (str "2023 JAN") = str "2023 JAN" := by decide
  have huq2 : uq (str "850.2") = str "850.2" := by decide
  have hm : tblGet MONTH_MAP (upper ((spanWs ((spanDigits (str "2023 JAN")).2)).2)) = some 1 := by
    decide
  have hy : digitsToNat ((spanDigits (str "2023 JAN")).1) = 2023 := by decide
  have hrow : parseRow (str "2023 JAN,850.2") = some ⟨⟨2023, 1, 1⟩, (850.2 : ℚ)⟩ := by
    simp +decide [parseRow, hcomma, huq1, huq2, hm, hy, pyFloat, hp]
    norm_num [pyFloatVal]
  simp [read_csv_with_header_metadata, hsplit, hhead, hrow]

/-- C9: when the Panel is empty, or the revision-metrics step leaves zero
rows (every record's vintage age negative), the age summary is the empty
table — no error is raised (the model's functions are total). -/
theorem summarize_empty_on_no_rows (panel : List VintageRecord)
    (h : panel = [] ∨ add_revision_metrics panel = []) :
    summarize_by_age (add_revision_metrics panel) = [] := by
  rcases h with h | h
  · subst h; rfl
  · rw [h]; rfl

def negAgePanel : List VintageRecord := [⟨⟨2022, 6, 1⟩, 800, ⟨2022, 1, 15⟩, str "ap2y_v0.csv"⟩]

/-- Witness for C9: a one-record panel whose vintage predates its
observation month loses its only row to the age filter, and the summary is
empty. -/
theorem summarize_empty_on_no_rows_witness :
    (negAgePanel = [] ∨ add_revision_metrics negAgePanel = []) ∧
      summarize_by_age (add_revision_metrics negAgePanel) = [] :=
  ⟨Or.inr (by decide), summarize_empty_on_no_rows negAgePanel (Or.inr (by decide))⟩

theorem mem_dedupFirstAux [DecidableEq α] (l : List α) :
    ∀ (seen : List α) (x : α), x ∈ dedupFirstAux seen l ↔ x ∈ l ∧ x ∉ seen := by
  induction l with
  | nil => intro seen x; simp [dedupFirstAux]
  | cons y l ih =>
    intro seen x
    rw [dedupFirstAux]
    by_cases hy : y ∈ seen
    · rw [if_pos hy, ih]
      constructor
      · rintro ⟨hxl, hxs⟩
        exact ⟨List.mem_cons_of_mem y hxl, hxs⟩
      · rintro ⟨hxl, hxs⟩
        rcases List.mem_cons.mp hxl with h | h
        · exact absurd (h ▸ hy) hxs
        · exact ⟨h, hxs⟩
    · rw [if_neg hy]
      by_cases hxy : x = y
      · subst hxy
        simp [hy]
      · simp only [List.mem_cons, hxy, false_or]
        rw [ih]
        simp [hxy, hy]

theorem nodup_dedupFirstAux [DecidableEq α] (l : List α) :
    ∀ seen : List α, (dedupFirstAux seen l).Nodup := by
  induction l with
  | nil => intro seen; simp [dedupFirstAux]
  | cons y l ih =>
    intro seen
    rw [dedupFirstAux]
    by_cases hy : y ∈ seen
    · rw [if_pos hy]; exact ih seen
    · rw [if_neg hy]
      refine List.nodup_cons.mpr ⟨?_, ih (y :: seen)⟩
      intro hmem
      exact ((mem_dedupFirstAux l (y :: seen) y).mp hmem).2 (List.mem_cons_self y seen)

theorem mem_dedupFirst [DecidableEq α] (l : List α) (x : α) :
    x ∈ dedupFirst l ↔ x ∈ l := by
  rw [dedupFirst, mem_dedupFirstAux]
  simp

theorem maxVintageFirst_aux (l : List VintageRecord) :
    ∀ b : VintageRecord,
      ∃ r, l.foldl (fun acc r =>
          if dateNum acc.vintage_date < dateNum r.vintage_date then r else acc) b = r ∧
        (r = b ∨ r ∈ l) ∧ dateNum b.vintage_date ≤ dateNum r.vintage_date ∧
        ∀ s ∈ l, dateNum s.vintage_date ≤ dateNum r.vintage_date := by
  induction l with
  | nil => intro b; exact ⟨b, rfl, Or.inl rfl, le_refl _, by simp⟩
  | cons s l ih =>
    intro b
    rw [List.foldl_cons]
    by_cases h : dateNum b.vintage_date < dateNum s.vintage_date
    · obtain ⟨r, hfold, hmem, hle, hall⟩ := ih s
      rw [if_pos h]
      refine ⟨r, hfold, ?_, le_of_lt (lt_of_lt_of_le h hle), ?_⟩
      · rcases hmem with h' | h'
        · exact Or.inr (h' ▸ List.mem_cons_self s l)
        · exact Or.inr (List.mem_cons_of_mem s h')
      · intro t ht
        rcases List.mem_cons.mp ht with h' | h'
        · exact h' ▸ hle
        · exact hall t h'
    · obtain ⟨r, hfold, hmem, hle, hall⟩ := ih b
      rw [if_neg h]
      refine ⟨r, hfold, ?_, hle, ?_⟩
      · rcases hmem with h' | h'
        · exact Or.inl h'
        · exact Or.inr (List.mem_cons_of_mem s h')
      · intro t ht
        rcases List.mem_cons.mp ht with h' | h'
        · exact h' ▸ le_trans (le_of_not_lt h) hle
        · exact hall t h'

theorem maxVintageFirst_spec (g : List VintageRecord) (hne : g ≠ []) :
    ∃ r, maxVintageFirst g = some r ∧ r ∈ g ∧
      ∀ s ∈ g, dateNum s.vintage_date ≤ dateNum r.vintage_date := by
  match g, hne with
  | b :: l, _ =>
    obtain ⟨r, hfold, hmem, hble, hall⟩ := maxVintageFirst_aux l b
    refine ⟨r, by rw [maxVintageFirst, hfold], ?_, ?_⟩
    · rcases hmem with h | h
      · exact h ▸ List.mem_cons_self b l
      · exact List.mem_cons_of_mem b h
    · intro s hs
      rcases List.mem_cons.mp hs with h | h
      · exact h ▸ hble
      · exact hall s h

theorem latestKnowns_sorted (panel : List VintageRecord) :
    (latestKnowns panel).Sorted kLe :=
  List.sorted_insertionSort kLe _

theorem filterMap_keys_sublist (f : ℕ → Option (ℕ × ℚ))
    (hf : ∀ m p, f m = some p → p.1 = m) (l : List ℕ) :
    ((l.filterMap f).map Prod.fst).Sublist l := by
  induction l with
  | nil => simp
  | cons m l ih =>
    rw [List.filterMap_cons]
    cases hfm : f m with
    | none => exact ih.cons m
    | some p =>
      rw [List.map_cons, hf m p hfm]
      exact ih.cons₂ m

theorem latestKnowns_keys_nodup (panel : List VintageRecord) :
    ((latestKnowns panel).map Prod.fst).Nodup := by
  have hperm : ((latestKnowns panel).map Prod.fst).Perm
      (((dedupFirst (panel.map recMonth)).filterMap (fun m =>
        (maxVintageFirst (panel.filter (fun r => recMonth r = m))).map
          (fun r => (m, r.value)))).map Prod.fst) :=
    (List.perm_insertionSort kLe _).map Prod.fst
  refine hperm.nodup_iff.mpr ?_
  refine List.Nodup.sublist (filterMap_keys_sublist _ ?_ _) (nodup_dedupFirstAux _ [])
  intro m p hp
  cases hmax : maxVintageFirst (panel.filter (fun r => recMonth r = m)) with
  | none => rw [hmax] at hp; simp at hp
  | some r => rw [hmax] at hp; simp at hp; rw [← hp]

theorem mem_latestKnowns (panel : List VintageRecord) (p : ℕ × ℚ) :
    p ∈ latestKnowns panel ↔
      p ∈ (dedupFirst (panel.map recMonth)).filterMap (fun m =>
        (maxVintageFirst (panel.filter (fun r => recMonth r = m))).map
          (fun r => (m, r.value))) :=
  (List.perm_insertionSort kLe _).mem_iff

/-- Every entry of the latest frame carries the value of a record attaining
the maximal vintage date within its observation-month group. -/
theorem latestKnowns_mem_spec (panel : List VintageRecord) (p : ℕ × ℚ)
    (hp : p ∈ latestKnowns panel) :
    ∃ r ∈ panel, recMonth r = p.1 ∧ p.2 = r.value ∧
      ∀ s ∈ panel, recMonth s = p.1 → dateNum s.vintage_date ≤ dateNum r.vintage_date := by
  rw [mem_latestKnowns, List.mem_filterMap] at hp
  obtain ⟨m, _, hfm⟩ := hp
  cases hmax : maxVintageFirst (panel.filter (fun r => recMonth r = m)) with
  | none => rw [hmax] at hfm; simp at hfm
  | some r' =>
    rw [hmax] at hfm
    simp only [Option.map_some', Option.some.injEq] at hfm
    have hgne : panel.filter (fun r => recMonth r = m) ≠ [] := by
      intro hnil
      rw [hnil] at hmax
      simp [maxVintageFirst] at hmax
    obtain ⟨r, hmax', hrmem, hall⟩ := maxVintageFirst_spec _ hgne
    rw [hmax] at hmax'
    have hrr : r' = r := by injection hmax'
    rw [hrr] at hfm
    have hrp : r ∈ panel ∧ recMonth r = m := by
      have := List.mem_filter.mp hrmem
      exact ⟨this.1, by simpa using this.2⟩
    refine ⟨r, hrp.1, by rw [hrp.2, ← hfm], by rw [← hfm], ?_⟩
    intro s hs hsm
    refine hall s (List.mem_filter.mpr ⟨hs, ?_⟩)
    rw [← hfm] at hsm
    simpa using hsm

/-- Every panel observation month appears in the latest frame. -/
theorem latestKnowns_covers (panel : List VintageRecord) (r : VintageRecord)
    (hr : r ∈ panel) : ∃ v, (recMonth r, v) ∈ latestKnowns panel := by
  have hg : r ∈ panel.filter (fun s => recMonth s = recMonth r) :=
    List.mem_filter.mpr ⟨hr, by simp⟩
  have hgne : panel.filter (fun s => recMonth s = recMonth r) ≠ [] :=
    List.ne_nil_of_mem hg
  obtain ⟨r', hmax, _, _⟩ := maxVintageFirst_spec _ hgne
  refine ⟨r'.value, ?_⟩
  rw [mem_latestKnowns, List.mem_filterMap]
  refine ⟨recMonth r, ?_, by rw [hmax]; rfl⟩
  rw [dedupFirst, mem_dedupFirstAux]
  exact ⟨List.mem_map_of_mem recMonth hr, by simp⟩

theorem getLastD_mem_of_ne_nil : ∀ (l : List (ℕ × ℚ)) (d : ℕ × ℚ), l ≠ [] →
    l.getLastD d ∈ l := by
  intro l
  induction l with
  | nil => intro d h; exact absurd rfl h
  | cons x t ih =>
    intro d _
    rw [List.getLastD_cons]
    cases t with
    | nil => exact List.mem_cons_self x []
    | cons y t' => exact List.mem_cons_of_mem x (ih x (by simp))

theorem sorted_le_getLastD : ∀ (l : List (ℕ × ℚ)), l.Sorted kLe →
    ∀ d p, p ∈ l → p.1 ≤ (l.getLastD d).1 := by
  intro l
  induction l with
  | nil => intro _ d p hp; exact absurd hp (by simp)
  | cons x t ih =>
    intro hs d p hp
    rw [List.getLastD_cons]
    cases t with
    | nil =>
      obtain rfl : p = x := by simpa using hp
      simp
    | cons y t' =>
      rcases List.mem_cons.mp hp with h | h
      · subst h
        have hlast : (y :: t').getLastD p ∈ y :: t' := getLastD_mem_of_ne_nil _ p (by simp)
        exact List.rel_of_sorted_cons hs _ hlast
      · exact ih (List.Sorted.of_cons hs) x p h

theorem find?_key_unique : ∀ (l : List (ℕ × ℚ)), (l.map Prod.fst).Nodup →
    ∀ m v, (m, v) ∈ l → l.find? (fun p => p.1 = m) = some (m, v) := by
  intro l
  induction l with
  | nil => intro _ m v hmem; exact absurd hmem (by simp)
  | cons a t ih =>
    intro hnd m v hmem
    by_cases ha : a.1 = m
    · rw [List.find?_cons_of_pos _ (by simpa using ha)]
      rcases List.mem_cons.mp hmem with h | h
      · rw [← h]
      · exfalso
        have hmt : m ∈ t.map Prod.fst := List.mem_map.mpr ⟨(m, v), h, rfl⟩
        rw [← ha] at hmt
        exact (List.nodup_cons.mp (by simpa using hnd)).1 hmt
    · rw [List.find?_cons_of_neg _ (by simpa using ha)]
      rcases List.mem_cons.mp hmem with h | h
      · exact absurd (by rw [← h] : a.1 = m) ha
      · exact ih (List.nodup_cons.mp (by simpa using hnd)).2 m v h

theorem filter_getLast?_of_max : ∀ (l : List (ℕ × ℚ)), l.Sorted kLe →
    (l.map Prod.fst).Nodup → ∀ (a : ℕ × ℚ) (m : ℕ), a ∈ l → a.1 < m →
    (∀ p ∈ l, p.1 < m → p.1 ≤ a.1) →
    (l.filter (fun p => p.1 < m)).getLast? = some a := by
  intro l
  induction l with
  | nil => intro _ _ a m ha; exact absurd ha (by simp)
  | cons x t ih =>
    intro hs hnd a m ha ham hmax
    by_cases hax : a = x
    · subst hax
      rw [List.filter_cons_of_pos (by simpa using ham)]
      have ht : t.filter (fun p => p.1 < m) = [] := by
        rw [List.filter_eq_nil_iff]
        intro p hp hpm
        have h1 : p.1 ≤ a.1 := hmax p (List.mem_cons_of_mem a hp) (by simpa using hpm)
        have h2 : a.1 ≤ p.1 := List.rel_of_sorted_cons hs p hp
        have : a.1 ∈ t.map Prod.fst := List.mem_map.mpr ⟨p, hp, le_antisymm h1 h2⟩
        exact (List.nodup_cons.mp (by simpa using hnd)).1 this
      rw [ht]
      rfl
    · have hat : a ∈ t := (List.mem_cons.mp ha).resolve_left hax
      have hrec : (t.filter (fun p => p.1 < m)).getLast? = some a :=
        ih (List.Sorted.of_cons hs) (List.nodup_cons.mp (by simpa using hnd)).2 a m hat ham
          (fun p hp hpm => hmax p (List.mem_cons_of_mem x hp) hpm)
      by_cases hxm : x.1 < m
      · rw [List.filter_cons_of_pos (by simpa using hxm)]
        have htne : t.filter (fun p => p.1 < m) ≠ [] := by
          intro hnil; rw [hnil] at hrec; exact Option.noConfusion hrec
        cases hft : t.filter (fun p => p.1 < m) with
        | nil => exact absurd hft htne
        | cons y ys =>
          rw [hft] at hrec
          rw [List.getLast?_cons_cons]
          exact hrec
      · rw [List.filter_cons_of_neg (by simpa using hxm)]
        exact hrec

theorem filter_head?_of_min : ∀ (l : List (ℕ × ℚ)), l.Sorted kLe →
    (l.map Prod.fst).Nodup → ∀ (b : ℕ × ℚ) (m : ℕ), b ∈ l → m < b.1 →
    (∀ p ∈ l, m < p.1 → b.1 ≤ p.1) →
    (l.filter (fun p => m < p.1)).head? = some b := by
  intro l
  induction l with
  | nil => intro _ _ b m hb; exact absurd hb (by simp)
  | cons x t ih =>
    intro hs hnd b m hb hbm hmin
    by_cases hxm : m < x.1
    · rw [List.filter_cons_of_pos (by simpa using hxm)]
      have hbx : b = x := by
        rcases List.mem_cons.mp hb with h | h
        · exact h
        · exfalso
          have h1 : b.1 ≤ x.1 := hmin x (List.mem_cons_self x t) hxm
          have h2 : x.1 ≤ b.1 := List.rel_of_sorted_cons hs b h
          have : x.1 ∈ t.map Prod.fst := List.mem_map.mpr ⟨b, h, le_antisymm h1 h2⟩
          exact (List.nodup_cons.mp (by simpa using hnd)).1 this
      rw [hbx]
      rfl
    · have hbx : b ≠ x := fun h => hxm (h ▸ hbm)
      have hbt : b ∈ t := (List.mem_cons.mp hb).resolve_left hbx
      rw [List.filter_cons_of_neg (by simpa using hxm)]
      exact ih (List.Sorted.of_cons hs) (List.nodup_cons.mp (by simpa using hnd)).2 b m hbt hbm
        (fun p hp hpm => hmin p (List.mem_cons_of_mem x hp) hpm)

theorem interpAt_of_mem (knowns : List (ℕ × ℚ)) (hnd : (knowns.map Prod.fst).Nodup)
    (p : ℕ × ℚ) (hp : p ∈ knowns) : interpAt knowns p.1 = some p.2 := by
  have hf : knowns.find? (fun q => q.1 = p.1) = some (p.1, p.2) :=
    find?_key_unique knowns hnd p.1 p.2 hp
  rw [interpAt, hf]

theorem interpAt_gap (knowns : List (ℕ × ℚ)) (m : ℕ)
    (hnone : ∀ p ∈ knowns, p.1 ≠ m) (a b : ℕ × ℚ)
    (hlast : (knowns.filter (fun p => p.1 < m)).getLast? = some a)
    (hhead : (knowns.filter (fun p => m < p.1)).head? = some b) :
    interpAt knowns m =
      some (a.2 + (b.2 - a.2) * ((m - a.1 : ℕ) : ℚ) / ((b.1 - a.1 : ℕ) : ℚ)) := by
  have hf : knowns.find? (fun p => p.1 = m) = none :=
    List.find?_eq_none.mpr (fun p hp => by simpa using hnone p hp)
  rw [interpAt, hf]
  simp only [hlast, hhead]

theorem interpAt_before_first (knowns : List (ℕ × ℚ)) (m : ℕ)
    (hall : ∀ p ∈ knowns, m < p.1) : interpAt knowns m = none := by
  have hf : knowns.find? (fun p => p.1 = m) = none :=
    List.find?_eq_none.mpr (fun p hp => by simpa using (hall p hp).ne')
  have hflt : knowns.filter (fun p => p.1 < m) = [] := by
    rw [List.filter_eq_nil_iff]
    intro p hp
    simpa using le_of_lt (hall p hp)
  rw [interpAt, hf]
  simp only [hflt, List.getLast?_nil]

theorem load_latest_series_eq (panel : List VintageRecord) (k : ℕ × ℚ)
    (ks : List (ℕ × ℚ)) (hk : latestKnowns panel = k :: ks) :
    load_latest_series panel =
      (List.range' k.1 (((k :: ks).getLastD k).1 - k.1 + 1)).map
        (fun m => (m, interpAt (k :: ks) m)) := by
  rw [load_latest_series, hk]

/-- C8: the Latest-Series Projector.  With `latestKnowns panel` the
per-month latest frame the code derives (one entry per observation month,
sorted), the conjuncts state: (1) each latest entry carries the value of a
record attaining the maximal vintage date within its observation-month
group (ties broken deterministically: the first such row); (2) every panel
month has a latest entry; (3) the emitted series never extends before the
first or after the last known month (in particular nothing at all — filled
or unfilled — is produced before the first known value); (4) the monthly
grid covers every month between the minimum and maximum observation month,
valued by the interpolation operator; (5) known months keep their latest
value; (6) a month before the first known month would be left unfilled;
(7) a gap month strictly between its nearest known neighbours `a` and `b`
is filled by forward-direction linear interpolation
`va + (vb - va)·(m - a)/(b - a)`. -/
theorem latest_series_projection (panel : List VintageRecord) :
    (∀ p ∈ latestKnowns panel,
        ∃ r ∈ panel, recMonth r = p.1 ∧ p.2 = r.value ∧
          ∀ s ∈ panel, recMonth s = p.1 → dateNum s.vintage_date ≤ dateNum r.vintage_date) ∧
      (∀ r ∈ panel, ∃ v, (recMonth r, v) ∈ latestKnowns panel) ∧
      (∀ m q, (m, q) ∈ load_latest_series panel →
        (∃ p ∈ latestKnowns panel, p.1 ≤ m) ∧ ∃ p ∈ latestKnowns panel, m ≤ p.1) ∧
      (∀ m, (∃ p ∈ latestKnowns panel, p.1 ≤ m) → (∃ p ∈ latestKnowns panel, m ≤ p.1) →
        (m, interpAt (latestKnowns panel) m) ∈ load_latest_series panel) ∧
      (∀ p ∈ latestKnowns panel, interpAt (latestKnowns panel) p.1 = some p.2) ∧
      (∀ m, (∀ p ∈ latestKnowns panel, m < p.1) → interpAt (latestKnowns panel) m = none) ∧
      (∀ m a b, a ∈ latestKnowns panel → b ∈ latestKnowns panel → a.1 < m → m < b.1 →
        (∀ p ∈ latestKnowns panel, p.1 ≠ m) →
        (∀ p ∈ latestKnowns panel, p.1 < m → p.1 ≤ a.1) →
        (∀ p ∈ latestKnowns panel, m < p.1 → b.1 ≤ p.1) →
        interpAt (latestKnowns panel) m =
          some (a.2 + (b.2 - a.2) * ((m - a.1 : ℕ) : ℚ) / ((b.1 - a.1 : ℕ) : ℚ))) := by
  refine ⟨latestKnowns_mem_spec panel, fun r hr => latestKnowns_covers panel r hr,
    ?_, ?_, fun p hp => interpAt_of_mem _ (latestKnowns_keys_nodup panel) p hp,
    fun m hall => interpAt_before_first _ m hall,
    fun m a b ha hb ham hbm hne hmaxp hminp =>
      interpAt_gap _ m hne a b
        (filter_getLast?_of_max _ (latestKnowns_sorted panel)
          (latestKnowns_keys_nodup panel) a m ha ham hmaxp)
        (filter_head?_of_min _ (latestKnowns_sorted panel)
          (latestKnowns_keys_nodup panel) b m hb hbm hminp)⟩
  · intro m q hmq
    cases hk : latestKnowns panel with
    | nil => rw [load_latest_series, hk] at hmq; exact absurd hmq (by simp)
    | cons k ks =>
      rw [load_latest_series_eq panel k ks hk] at hmq
      obtain ⟨m', hm', heq⟩ := List.mem_map.mp hmq
      have hmm : m' = m := congrArg Prod.fst heq
      subst hmm
      have hrange := List.mem_range'_1.mp hm'
      have hsorted : (k :: ks).Sorted kLe := hk ▸ latestKnowns_sorted panel
      have hlmem : (k :: ks).getLastD k ∈ k :: ks :=
        getLastD_mem_of_ne_nil _ k (by simp)
      have hkL : k.1 ≤ ((k :: ks).getLastD k).1 :=
        sorted_le_getLastD _ hsorted k k (List.mem_cons_self k ks)
      refine ⟨⟨k, List.mem_cons_self k ks, hrange.1⟩,
        ⟨(k :: ks).getLastD k, hlmem, ?_⟩⟩
      omega
  · intro m hlow hhigh
    obtain ⟨p₁, hp₁, h₁⟩ := hlow
    obtain ⟨p₂, hp₂, h₂⟩ := hhigh
    cases hk : latestKnowns panel with
    | nil => rw [hk] at hp₁; exact absurd hp₁ (by simp)
    | cons k ks =>
      rw [load_latest_series_eq panel k ks hk]
      rw [hk] at hp₁ hp₂
      have hsorted : (k :: ks).Sorted kLe := hk ▸ latestKnowns_sorted panel
      have hk1 : k.1 ≤ p₁.1 := by
        rcases List.mem_cons.mp hp₁ with h | h
        · rw [h]
        · exact List.rel_of_sorted_cons hsorted p₁ h
      have hL : p₂.1 ≤ ((k :: ks).getLastD k).1 :=
        sorted_le_getLastD _ hsorted k p₂ hp₂
      refine List.mem_map.mpr ⟨m, List.mem_range'_1.mpr ⟨le_trans hk1 h₁, ?_⟩, rfl⟩
      omega

def rJanW : VintageRecord := ⟨⟨2023, 1, 1⟩, 1, ⟨2023, 2, 10⟩, str "ap2y_a.csv"⟩

def rMarW : VintageRecord := ⟨⟨2023, 3, 1⟩, 3, ⟨2023, 4, 12⟩, str "ap2y_a.csv"⟩

def panW : List VintageRecord := [rJanW, rMarW]

/-- Witness for C8 at a concrete panel with observation months 2023-01 and
2023-03 (month numbers 24277 and 24279): the gap month 24278 is filled by
forward linear interpolation between the neighbouring latest values 1 and
3, and that interpolated point is emitted by the projector. -/
theorem latest_series_projection_witness :
    ((24277, (1 : ℚ)) ∈ latestKnowns panW ∧ (24279, (3 : ℚ)) ∈ latestKnowns panW ∧
        (∀ p ∈ latestKnowns panW, p.1 ≠ 24278)) ∧
      interpAt (latestKnowns panW) 24278 =
        some ((1 : ℚ) + ((3 : ℚ) - 1) * ((24278 - 24277 : ℕ) : ℚ) / ((24279 - 24277 : ℕ) : ℚ)) ∧
      (24278, interpAt (latestKnowns panW) 24278) ∈ load_latest_series panW := by
  obtain ⟨_, _, _, h4, _, _, h7⟩ := latest_series_projection panW
  refine ⟨⟨by decide, by decide, by decide⟩, ?_, ?_⟩
  · exact h7 24278 (24277, (1 : ℚ)) (24279, (3 : ℚ)) (by decide) (by decide)
      (by decide) (by decide) (by decide) (by decide) (by decide)
  · exact h4 24278 ⟨(24277, (1 : ℚ)), by decide, by decide⟩
      ⟨(24279, (3 : ℚ)), by decide, by decide⟩
